import Mathlib

/-!
# Verification of the 泊松生成器 point-sampling library

A shallow embedding of `include/泊松生成器.h` (Poisson-disk, Vogel,
jittered-grid and Hammersley 2D point samplers) and proofs about it.
The source names its symbols in Chinese; since Lean identifiers cannot use
CJK ideographs, each definition carries the upstream English name (the one
the specification also uses) and its doc comment names the source symbol.

Modelling conventions:
* `uint32_t` state and bit manipulation are embedded as `Nat` with explicit
  `% 2 ^ 32` where the C code wraps.
* `float`/`double` arithmetic is idealised as exact arithmetic: values the
  source computes purely from integers (the PRNG stream, the Van der Corput
  scaling) live in `ℚ`; geometric values built with `sqrt`/`cos`/`sin` live
  in `ℝ` with `Real.sqrt`, `Real.cos`, `Real.sin`.  Decimal literals of the
  source are kept as exact rationals.
* The two `while` loops of the source whose termination depends on the
  random stream (the first-point retry loop, the main Poisson loop) and the
  jittered-grid retry loop are embedded with explicit fuel, returning
  `Option`; `none` models a run that does not finish within the fuel.
* The one unchecked memory access of the source (`网格::要插入` writes
  `网格_[g.x][g.y]` without a bounds test; out of range it is undefined
  behaviour on the backing `std::vector`s) is embedded as a checked write
  returning `none` when the cell indices fall outside the allocated
  storage.  The scan in `要是在邻近区域内` tests bounds itself in the
  source and is embedded as written.
-/

namespace PoissonGenerator

/-- The linear-congruential generator `DefaultPRNG` of the source: a single
`uint32_t` seed (default `7133167`), updated by `seed_ *= 521167`. -/
structure DefaultPRNG where
  seed : Nat
  deriving DecidableEq

/-- `DefaultPRNG::getSeed`. -/
def DefaultPRNG.getSeed (g : DefaultPRNG) : Nat := g.seed

/-- `DefaultPRNG::randomFloat` (spec: `nextFloat`).  The source multiplies
the seed (mod `2³²`), builds the IEEE-754 single
`a = (seed_ & 0x007fffff) | 0x40000000` — sign 0, exponent field `0x80`,
mantissa `m = seed_ & 0x7fffff` — whose value is `2¹·(1 + m/2²³) = 2 + m/2²²`,
and returns `0.5f * (a - 2.0f)`.  Each of those float operations is exact,
so the returned value is exactly `m / 2²³`.  Returns the value and the
updated generator (the source mutates the generator in place). -/
def DefaultPRNG.randomFloat (g : DefaultPRNG) : ℚ × DefaultPRNG :=
  let s : Nat := g.seed * 521167 % 2 ^ 32
  let m : Nat := s &&& 0x007fffff
  ((m : ℚ) / 2 ^ 23, ⟨s⟩)

/-- `DefaultPRNG::randomInt` (spec: `nextInt`):
`uint32_t(randomFloat() * maxInt)`.  The cast of the non-negative product
to `uint32_t` truncates, i.e. takes the floor. -/
def DefaultPRNG.randomInt (maxInt : Nat) (g : DefaultPRNG) : Nat × DefaultPRNG :=
  let (r, g') := g.randomFloat
  (⌊r * maxInt⌋₊, g')

/-- The point type `点` (spec: `Point`): two coordinates and the validity
flag `是有效的`.  The C++ default constructor leaves `x = y = 0` and the
flag false; the two-argument constructor sets it true. -/
@[ext]
structure Point where
  x : ℝ
  y : ℝ
  valid : Bool

/-- The default-constructed `点` (the grid's "empty cell" sentinel). -/
def Point.invalid : Point := ⟨0, 0, false⟩

instance : Inhabited Point := ⟨Point.invalid⟩

/-- `点::要是在矩形内` (spec: `isInUnitSquare`):
`x >= 0 && y >= 0 && x <= 1 && y <= 1`. -/
def Point.isInRectangle (p : Point) : Prop :=
  0 ≤ p.x ∧ 0 ≤ p.y ∧ p.x ≤ 1 ∧ p.y ≤ 1

/-- `点::要是在圆形内` (spec: `isInUnitCircle`):
`(x-0.5)² + (y-0.5)² <= 0.25`. -/
def Point.isInCircle (p : Point) : Prop :=
  (p.x - 0.5) * (p.x - 0.5) + (p.y - 0.5) * (p.y - 0.5) ≤ 0.25

/-- `点::operator+` used as `a + b`: componentwise sum (the validity flag
of the left operand, which the source's member operator mutates and
returns). -/
def Point.add (a b : Point) : Point := ⟨a.x + b.x, a.y + b.y, a.valid⟩

/-- `点::operator-` used as `a - b`: componentwise difference. -/
def Point.sub (a b : Point) : Point := ⟨a.x - b.x, a.y - b.y, a.valid⟩

/-- The region test `是圆形 ? p.要是在圆形内() : p.要是在矩形内()` the
samplers select with their `是圆形` (isCircle) flag. -/
def inRegion (isCircle : Bool) (p : Point) : Prop :=
  if isCircle then p.isInCircle else p.isInRectangle

/-- `获取距离` (spec: `distance`): the Euclidean distance
`sqrt((sx-ex)*(sx-ex) + (sy-ey)*(sy-ey))`. -/
noncomputable def getDistance (a b : Point) : ℝ :=
  Real.sqrt ((a.x - b.x) * (a.x - b.x) + (a.y - b.y) * (a.y - b.y))

/-- The C cast `(int)` of a `float`: truncation toward zero. -/
noncomputable def truncToInt (r : ℝ) : ℤ :=
  if 0 ≤ r then ⌊r⌋ else ⌈r⌉

/-- The grid-cell coordinate pair `网格点` (spec: GridCell coordinate). -/
structure GridPoint where
  x : ℤ
  y : ℤ

/-- `图像到网格` (spec: `toGridCell`):
`网格点((int)(P.x / 单格), (int)(P.y / 单格))`. -/
noncomputable def imageToGrid (P : Point) (cellSize : ℝ) : GridPoint :=
  ⟨truncToInt (P.x / cellSize), truncToInt (P.y / cellSize)⟩

/-- The acceleration grid `网格` (spec: Grid): dimensions `宽_`/`高_`, the
cell size `单格_`, and the backing store `网格_`, a vector of `高_` rows of
`宽_` default-constructed (invalid) points, embedded as a total map on cell
coordinates whose out-of-range entries are never read (the scan below tests
bounds, as the source does). -/
structure Grid where
  width : ℤ
  height : ℤ
  cellSize : ℝ
  cells : ℤ → ℤ → Point

/-- The `网格` constructor: a `高 × 宽` array of invalid points. -/
def Grid.make (w h : ℤ) (cs : ℝ) : Grid := ⟨w, h, cs, fun _ _ => Point.invalid⟩

/-- `网格::要插入` (spec: `insert`): `网格_[g.x][g.y] = 此点` with
`g = 图像到网格(此点, 单格_)`.  The source indexes the `高_`-element outer
vector by `g.x` and a `宽_`-element row by `g.y` with no bounds test; an
out-of-range index is undefined behaviour, embedded as `none`. -/
noncomputable def Grid.insert (g : Grid) (p : Point) : Option Grid :=
  let c := imageToGrid p g.cellSize
  if 0 ≤ c.x ∧ c.x < g.height ∧ 0 ≤ c.y ∧ c.y < g.width then
    some { g with cells := fun i j => if i = c.x ∧ j = c.y then p else g.cells i j }
  else none

/-- `网格::要是在邻近区域内` (spec: `isInNeighborhood`): scan the cells
`(i, j)` with `i ∈ [g.x-5, g.x+5]`, `j ∈ [g.y-5, g.y+5]`
(`D = 5`), skipping indices failing `i >= 0 && i < 宽_ && j >= 0 && j < 高_`,
and report whether some scanned cell holds a valid point at distance
`< 最小距离` from `此点`.  The loop with early `return true` is embedded as
the corresponding existential. -/
noncomputable def Grid.isInNeighbourhood (g : Grid) (p : Point)
    (minDist cellSize : ℝ) : Prop :=
  let gp := imageToGrid p cellSize
  ∃ i ∈ Finset.Icc (gp.x - 5) (gp.x + 5), ∃ j ∈ Finset.Icc (gp.y - 5) (gp.y + 5),
    (0 ≤ i ∧ i < g.width ∧ 0 ≤ j ∧ j < g.height) ∧
    (g.cells i j).valid = true ∧ getDistance (g.cells i j) p < minDist

/-- `随机取出` (spec: step 5a of the Poisson sampler): draw
`索引 = randomInt(size - 1)`, return `点集[索引]` and erase it.  The source
casts `size()` to `int`; it is only called on a non-empty list, where the
`Nat` subtraction agrees.  `点集[索引]` with an (unreachable) out-of-range
index would be undefined behaviour; `getD` supplies the default point. -/
def popRandom (l : List Point) (g : DefaultPRNG) :
    Point × List Point × DefaultPRNG :=
  let (idx, g') := DefaultPRNG.randomInt (l.length - 1) g
  (l.getD idx Point.invalid, l.eraseIdx idx, g')

/-- `在周围生成随机点` (spec: step 5b): radius `最小距离 * (R1 + 1)`, angle
`2 * 3.141592653589f * R2`, and the point
`(中心点.x + 半径·cos(角度), 中心点.y + 半径·sin(角度))` (a valid point, by
the two-argument `点` constructor).  The float literal is kept as the exact
rational `3.141592653589`. -/
noncomputable def generateRandomPointAround (center : Point) (minDist : ℝ)
    (g : DefaultPRNG) : Point × DefaultPRNG :=
  let (r1, g1) := g.randomFloat
  let (r2, g2) := g1.randomFloat
  let radius : ℝ := minDist * ((r1 : ℝ) + 1)
  let angle : ℝ := 2 * 3.141592653589 * (r2 : ℝ)
  (⟨center.x + radius * Real.cos angle, center.y + radius * Real.sin angle, true⟩, g2)

/-- The internal target count of `生成泊松点集`: `点数量 *= 2` on
`uint32_t`, wrapping mod `2³²`, then — only when `!是圆形` —
`点数量 = static_cast<int>(Pi_4 * 点数量)` with
`Pi_4 = 0.785398163397448309616` (kept as that exact rational; the cast of
the non-negative product truncates).  This is the value of that
computation where it is defined; the cast is undefined behaviour once the
product reaches `2³¹` (out of `int` range), see `internalTargetDefined`. -/
def internalTarget (numPoints : Nat) (isCircle : Bool) : Nat :=
  let n := numPoints * 2 % 2 ^ 32
  if isCircle then n else ⌊(0.785398163397448309616 : ℚ) * n⌋₊

/-- Definedness of the target computation of `生成泊松点集`: in the
`!是圆形` branch the `static_cast<int>(Pi_4 * 点数量)` is undefined
behaviour when the truncated product does not fit in `int`, i.e. when
`Pi_4 * 点数量 ≥ 2³¹` (the product is never negative). -/
def internalTargetDefined (numPoints : Nat) (isCircle : Bool) : Prop :=
  isCircle = true ∨
    (0.785398163397448309616 : ℚ) * ((numPoints * 2 % 2 ^ 32 : ℕ) : ℚ) < 2 ^ 31

/-- The minimum distance `生成泊松点集` actually uses: a negative argument
is replaced by `sqrt(点数量) / 点数量` computed from the already-scaled
internal target. -/
noncomputable def effectiveMinDistance (numPoints : Nat) (isCircle : Bool)
    (minDist : ℝ) : ℝ :=
  if minDist < 0 then
    Real.sqrt (internalTarget numPoints isCircle) / (internalTarget numPoints isCircle)
  else minDist

/-- `单格尺寸 = 最小距离 / sqrt(2.0f)`. -/
noncomputable def cellSizeOf (minDist : ℝ) : ℝ := minDist / Real.sqrt 2

/-- `网格宽 = (int)ceil(1.0f / 单格尺寸)` (likewise `网格高`); the cast of
the non-negative integral `ceil` result is exact. -/
noncomputable def gridWidthOf (cellSize : ℝ) : ℤ := ⌈(1 : ℝ) / cellSize⌉

open scoped Classical

/-- The `do { 首个点 = 点(randomFloat(), randomFloat()); } while` retry loop
seeding the Poisson sampler: draw a point, repeat until it satisfies the
selected region test.  Fueled; `none` models non-termination within the
fuel. -/
noncomputable def firstPointLoop (isCircle : Bool) :
    Nat → DefaultPRNG → Option (Point × DefaultPRNG)
  | 0, _ => none
  | fuel + 1, g =>
    let (x, g1) := g.randomFloat
    let (y, g2) := g1.randomFloat
    let p : Point := ⟨(x : ℝ), (y : ℝ), true⟩
    if inRegion isCircle p then some (p, g2) else firstPointLoop isCircle fuel g2

/-- The inner `for (i = 0; i < 新增点数量; i++)` of the Poisson sampler:
around `当前点` draw a candidate; if it passes the region test and is not in
the neighbourhood of a stored point, push it to the process list and the
sample list and insert it into the grid.  State: (采样点集, 待处理列表,
网格值, generator). -/
noncomputable def tryCandidates (isCircle : Bool) (minDist cellSize : ℝ) :
    Nat → Point → List Point × List Point × Grid × DefaultPRNG →
    Option (List Point × List Point × Grid × DefaultPRNG)
  | 0, _, st => some st
  | i + 1, cur, (samples, proc, grid, g) =>
    let (q, g') := generateRandomPointAround cur minDist g
    if inRegion isCircle q ∧ ¬ grid.isInNeighbourhood q minDist cellSize then
      match grid.insert q with
      | none => none
      | some grid' =>
        tryCandidates isCircle minDist cellSize i cur
          (samples ++ [q], proc ++ [q], grid', g')
    else tryCandidates isCircle minDist cellSize i cur (samples, proc, grid, g')

/-- The main `while (!待处理列表.empty() && 采样点集.size() <= 点数量)` loop
of `生成泊松点集`: pop a random point from the process list and attempt
`新增点数量` candidates around it.  Fueled. -/
noncomputable def poissonLoop (isCircle : Bool) (minDist cellSize : ℝ)
    (newPointsCount target : Nat) :
    Nat → List Point × List Point × Grid × DefaultPRNG → Option (List Point)
  | 0, _ => none
  | fuel + 1, (samples, proc, grid, g) =>
    match proc with
    | [] => some samples
    | _ :: _ =>
      if samples.length ≤ target then
        let (cur, proc', g') := popRandom proc g
        match tryCandidates isCircle minDist cellSize newPointsCount cur
            (samples, proc', grid, g') with
        | none => none
        | some (samples', proc'', grid', g'') =>
          poissonLoop isCircle minDist cellSize newPointsCount target fuel
            (samples', proc'', grid', g'')
      else some samples

/-- `生成泊松点集` (spec: `generatePoissonPoints`): scale the requested
count (`none` when that scaling's `static_cast<int>` is undefined
behaviour, see `internalTargetDefined`), derive the default minimum
distance when the argument is negative, return empty when the target is
zero, build the grid, seed it with the first point, and run the main loop.
`fuel` bounds both retry loops. -/
noncomputable def generatePoissonPoints (numPoints : Nat)
    (generator : DefaultPRNG) (isCircle : Bool) (newPointsCount : Nat)
    (minDist : ℝ) (fuel : Nat) : Option (List Point) :=
  if ¬ internalTargetDefined numPoints isCircle then none else
  let target := internalTarget numPoints isCircle
  let m := effectiveMinDistance numPoints isCircle minDist
  if target = 0 then some [] else
  let cs := cellSizeOf m
  let w := gridWidthOf cs
  let h := gridWidthOf cs
  match firstPointLoop isCircle fuel generator with
  | none => none
  | some (p0, g1) =>
    match Grid.insert (Grid.make w h cs) p0 with
    | none => none
    | some grid => poissonLoop isCircle m cs newPointsCount target fuel ([p0], [p0], grid, g1)

/-- `采样Vogel盘`: `半径 = sqrtf(索引 + 0.5f) / sqrtf(点数量)`,
`新角度 = 索引 * 黄金角 + 角度` with `黄金角 = 2.4f`, giving
`点(半径·cos, 半径·sin)`. -/
noncomputable def sampleVogelDisk (index numSamples : Nat) (angle : ℝ) : Point :=
  let goldenAngle : ℝ := 2.4
  let radius := Real.sqrt ((index : ℝ) + 0.5) / Real.sqrt (numSamples : ℝ)
  let theta := (index : ℝ) * goldenAngle + angle
  ⟨radius * Real.cos theta, radius * Real.sin theta, true⟩

/-- `生成Vogel点集` (spec: `generateVogelPoints`): `采样数 = 4·点数量` in
circle mode — a `uint32_t` product, wrapping mod `2³²` — else `点数量`;
point `i` is `采样Vogel盘(i, 采样数, 角度·π/180) + 中心点` (degree
conversion literal `3.141592653f`).  No filtering. -/
noncomputable def generateVogelPoints (numPoints : Nat) (isCircle : Bool)
    (angle : ℝ) (center : Point) : List Point :=
  let numSamples := if isCircle then 4 * numPoints % 2 ^ 32 else numPoints
  (List.range numPoints).map fun i =>
    (sampleVogelDisk i numSamples (angle * 3.141592653 / 180)).add center

/-- The jittered-grid `do { ... } while (!新点.要是在矩形内())` retry loop
for the cell `(x, y)` of an `N × N` grid: offset
`在周围生成随机点(点(0,0), 抖动半径) - 中心点 + 点(0.5, 0.5)` added to
`点(x/N, y/N)`, retried until inside the unit square.  Fueled. -/
noncomputable def jitterLoop (jitterRadius : ℝ) (center : Point) (N x y : Nat) :
    Nat → DefaultPRNG → Option (Point × DefaultPRNG)
  | 0, _ => none
  | fuel + 1, g =>
    let (o, g') := generateRandomPointAround ⟨0, 0, true⟩ jitterRadius g
    let offset := (o.sub center).add ⟨0.5, 0.5, true⟩
    let p := (Point.mk ((x : ℝ) / (N : ℝ)) ((y : ℝ) / (N : ℝ)) true).add offset
    if p.isInRectangle then some (p, g') else jitterLoop jitterRadius center N x y fuel g'

/-- The nested `for x / for y` loops of `生成抖动网格点集` over the listed
cells: jitter each cell; in circle mode a jittered point outside the unit
circle is skipped (`continue`), not retried. -/
noncomputable def jitterGridAux (isCircle : Bool) (jitterRadius : ℝ)
    (center : Point) (N fuel : Nat) :
    List (Nat × Nat) → DefaultPRNG → Option (List Point × DefaultPRNG)
  | [], g => some ([], g)
  | (x, y) :: rest, g =>
    match jitterLoop jitterRadius center N x y fuel g with
    | none => none
    | some (p, g') =>
      match jitterGridAux isCircle jitterRadius center N fuel rest g' with
      | none => none
      | some (ps, g'') =>
        if isCircle ∧ ¬ p.isInCircle then some (ps, g'') else some (p :: ps, g'')

/-- `生成抖动网格点集` (spec: `generateJitteredGridPoints`):
`网格尺寸 = uint32_t(sqrt(点数量))` (the truncated square root, i.e.
`Nat.sqrt`), then one jittered point per cell `(x, y)` of the
`网格尺寸 × 网格尺寸` grid, `x` outer and `y` inner. -/
noncomputable def generateJitteredGridPoints (numPoints : Nat)
    (generator : DefaultPRNG) (isCircle : Bool) (jitterRadius : ℝ)
    (center : Point) (fuel : Nat) : Option (List Point) :=
  let N := Nat.sqrt numPoints
  let cellsList := (List.range N).flatMap fun x => (List.range N).map fun y => (x, y)
  match jitterGridAux isCircle jitterRadius center N fuel cellsList generator with
  | none => none
  | some (ps, _) => some ps

/-- The bit manipulation of `radicalInverse_VdC`, on `uint32_t`: swap the
16-bit halves, then swap adjacent bits, bit pairs, nibbles and bytes.  Each
assignment stores a `uint32_t`, hence the `% 2 ^ 32`. -/
def radicalInverse_VdC_bits (bits : Nat) : Nat :=
  let b0 : Nat := bits % 2 ^ 32
  let b1 : Nat := ((b0 <<< 16) ||| (b0 >>> 16)) % 2 ^ 32
  let b2 : Nat := (((b1 &&& 0x55555555) <<< 1) ||| ((b1 &&& 0xAAAAAAAA) >>> 1)) % 2 ^ 32
  let b3 : Nat := (((b2 &&& 0x33333333) <<< 2) ||| ((b2 &&& 0xCCCCCCCC) >>> 2)) % 2 ^ 32
  let b4 : Nat := (((b3 &&& 0x0F0F0F0F) <<< 4) ||| ((b3 &&& 0xF0F0F0F0) >>> 4)) % 2 ^ 32
  (((b4 &&& 0x00FF00FF) <<< 8) ||| ((b4 &&& 0xFF00FF00) >>> 8)) % 2 ^ 32

/-- `radicalInverse_VdC`: the reversed bits scaled by the double literal
`2.3283064365386963e-10`, whose IEEE-754 value is exactly `2⁻³²` (the
source comments it `// / 0x100000000`); the conversions and the product
are exact for every 32-bit input. -/
def radicalInverse_VdC (bits : Nat) : ℚ :=
  (radicalInverse_VdC_bits bits : ℚ) / 2 ^ 32

/-- `hammersley2d`: `点(float(i) / float(N), radicalInverse_VdC(i))`. -/
noncomputable def hammersley2d (i N : Nat) : Point :=
  ⟨(i : ℝ) / (N : ℝ), ((radicalInverse_VdC i : ℚ) : ℝ), true⟩

/-- `生成Hammersley点集` (spec: `generateHammersleyPoints`): the points
`hammersley2d(i, 点数量)` for `i = 0, …, 点数量 - 1`.  (The source also
computes a `gridSize` it never uses.) -/
noncomputable def generateHammersleyPoints (numPoints : Nat) : List Point :=
  (List.range numPoints).map fun i => hammersley2d i numPoints

/-- A property of every list a fueled sampler can return: trivially true of
a run that exhausts its fuel. -/
def holdsForOutput (P : List Point → Prop) : Option (List Point) → Prop
  | none => True
  | some l => P l

/-- The Van der Corput radical inverse in base 2 of a 32-bit index, stated
as the specification describes it (the fractional number whose binary
digits after the point are the low 32 bits of `i`, least significant
first): the reference the bit-twiddling `radicalInverse_VdC` is checked
against. -/
def radicalInverseVdCSpec (i : Nat) : ℚ :=
  ∑ k ∈ Finset.range 32, if i.testBit k then (1 : ℚ) / 2 ^ (k + 1) else 0

/-- The loop invariant of the Poisson sampler: the grid has the dimensions
and cell size the sampler derived; every accepted sample is a valid point
of the selected region; samples are pairwise at distance ≥ minDist; and
every sample sits in the grid at its own (in-range) cell. -/
def stateInvariant (isCircle : Bool) (minDist s : ℝ) (W : ℤ)
    (samples : List Point) (grid : Grid) : Prop :=
  grid.width = W ∧ grid.height = W ∧ grid.cellSize = s ∧
  (∀ p ∈ samples, p.valid = true ∧ inRegion isCircle p) ∧
  List.Pairwise (fun a b => minDist ≤ getDistance a b) samples ∧
  (∀ p ∈ samples,
    0 ≤ (imageToGrid p s).x ∧ (imageToGrid p s).x < W ∧
    0 ≤ (imageToGrid p s).y ∧ (imageToGrid p s).y < W ∧
    grid.cells (imageToGrid p s).x (imageToGrid p s).y = p)

/-! ## Helper lemmas -/

lemma randomFloat_fst_nonneg (g : DefaultPRNG) : 0 ≤ g.randomFloat.1 := by
  unfold DefaultPRNG.randomFloat
  positivity

lemma randomFloat_fst_lt_one (g : DefaultPRNG) : g.randomFloat.1 < 1 := by
  unfold DefaultPRNG.randomFloat
  rw [div_lt_one (by positivity)]
  have h : g.seed * 521167 % 2 ^ 32 &&& 0x007fffff ≤ 0x007fffff := Nat.and_le_right
  calc ((g.seed * 521167 % 2 ^ 32 &&& 0x007fffff : ℕ) : ℚ)
      ≤ ((0x007fffff : ℕ) : ℚ) := by exact_mod_cast h
    _ < 2 ^ 23 := by norm_num

/-- One masked half-block swap `((s & M) << t) | ((s & M') >> t)` (stored
into a `uint32_t`) moves bit `j ^^^ t` of `s` to bit `j`, whenever `M`
selects the bits whose block offset is below `t` and `M'` the others. -/
lemma maskStepTestBit (t M M' s j : Nat) (hj : j < 32)
    (hM : ∀ m, m < 32 → M.testBit m = decide (m % (2 * t) < t))
    (hM' : ∀ m, m < 32 → M'.testBit m = decide (t ≤ m % (2 * t)))
    (hM'lt : M' < 2 ^ 32)
    (hkey : ∀ j', j' < 32 →
      (j' % (2 * t) < t →
        j' ^^^ t = t + j' ∧ t + j' < 32 ∧ t ≤ (t + j') % (2 * t) ∧
          (t ≤ j' → t ≤ (j' - t) % (2 * t))) ∧
      (t ≤ j' % (2 * t) →
        t ≤ j' ∧ j' ^^^ t = j' - t ∧ (j' - t) % (2 * t) < t ∧
          (t + j' < 32 → (t + j') % (2 * t) < t))) :
    ((((s &&& M) <<< t) ||| ((s &&& M') >>> t)) % 2 ^ 32).testBit j
      = s.testBit (j ^^^ t) := by
  rw [Nat.testBit_mod_two_pow, Nat.testBit_lor, Nat.testBit_shiftLeft,
    Nat.testBit_shiftRight, Nat.testBit_land, Nat.testBit_land]
  have h32 : decide (j < 32) = true := by simpa using hj
  rcases lt_or_ge (j % (2 * t)) t with h | h
  · obtain ⟨hx, hlt, hhi, hlo⟩ := (hkey j hj).1 h
    have hr : M'.testBit (t + j) = true := by
      rw [hM' _ hlt]; simpa using hhi
    rw [hx, hr, h32]
    by_cases hle : t ≤ j
    · have hl : M.testBit (j - t) = false := by
        rw [hM _ (by omega)]
        simpa using (by omega : ¬ (j - t) % (2 * t) < t)
      rw [hl]
      simp
    · have hl : decide (t ≤ j) = false := by simpa using hle
      rw [hl]
      simp
  · obtain ⟨hle, hx, hlo, hhi⟩ := (hkey j hj).2 h
    have hl : M.testBit (j - t) = true := by
      rw [hM _ (by omega)]; simpa using hlo
    have hr : M'.testBit (t + j) = false := by
      rcases lt_or_ge (t + j) 32 with h' | h'
      · rw [hM' _ h']
        simpa using (by omega : ¬ t ≤ (t + j) % (2 * t))
      · exact Nat.testBit_eq_false_of_lt (lt_of_lt_of_le hM'lt
          (Nat.pow_le_pow_right (by norm_num) h'))
    have hle' : decide (t ≤ j) = true := by simpa using hle
    rw [hx, hl, hr, h32, hle']
    simp

/-- The 16-bit rotation `(s << 16) | (s >> 16)` (stored into a `uint32_t`)
moves bit `j ^^^ 16` of `s < 2³²` to bit `j`. -/
lemma rotate16TestBit (s j : Nat) (hj : j < 32) (hs : s < 2 ^ 32) :
    (((s <<< 16) ||| (s >>> 16)) % 2 ^ 32).testBit j = s.testBit (j ^^^ 16) := by
  rw [Nat.testBit_mod_two_pow, Nat.testBit_lor, Nat.testBit_shiftLeft,
    Nat.testBit_shiftRight]
  have h32 : decide (j < 32) = true := by simpa using hj
  have hx : ∀ j', j' < 32 →
      (j' < 16 → j' ^^^ 16 = 16 + j') ∧ (16 ≤ j' → j' ^^^ 16 = j' - 16) := by decide
  rcases lt_or_ge j 16 with h | h
  · have he : j ^^^ 16 = 16 + j := (hx j hj).1 h
    have hl : decide (16 ≤ j) = false := by simpa using (by omega : ¬ 16 ≤ j)
    rw [he, hl, h32]
    simp
  · have he : j ^^^ 16 = j - 16 := (hx j hj).2 h
    have hhi : s.testBit (16 + j) = false :=
      Nat.testBit_eq_false_of_lt (lt_of_lt_of_le hs
        (Nat.pow_le_pow_right (by norm_num) (by omega)))
    have hle : decide (16 ≤ j) = true := by simpa using h
    rw [he, hhi, hle, h32]
    simp

/-- Bit `j < 32` of the reversed word is bit `31 - j` of the input. -/
lemma radicalInverse_VdC_bits_testBit (b j : Nat) (hj : j < 32) :
    (radicalInverse_VdC_bits b).testBit j = b.testBit (31 - j) := by
  have hxlt : ∀ (t : Nat), t ∈ [1, 2, 4, 8, 16] → ∀ j', j' < 32 → j' ^^^ t < 32 := by decide
  have h1 : ∀ j', j' < 32 → ∀ s,
      ((((s &&& 0x55555555) <<< 1) ||| ((s &&& 0xAAAAAAAA) >>> 1)) % 2 ^ 32).testBit j'
        = s.testBit (j' ^^^ 1) := by
    intro j' hj' s
    exact maskStepTestBit 1 0x55555555 0xAAAAAAAA s j' hj' (by decide) (by decide)
      (by norm_num) (by decide)
  have h2 : ∀ j', j' < 32 → ∀ s,
      ((((s &&& 0x33333333) <<< 2) ||| ((s &&& 0xCCCCCCCC) >>> 2)) % 2 ^ 32).testBit j'
        = s.testBit (j' ^^^ 2) := by
    intro j' hj' s
    exact maskStepTestBit 2 0x33333333 0xCCCCCCCC s j' hj' (by decide) (by decide)
      (by norm_num) (by decide)
  have h4 : ∀ j', j' < 32 → ∀ s,
      ((((s &&& 0x0F0F0F0F) <<< 4) ||| ((s &&& 0xF0F0F0F0) >>> 4)) % 2 ^ 32).testBit j'
        = s.testBit (j' ^^^ 4) := by
    intro j' hj' s
    exact maskStepTestBit 4 0x0F0F0F0F 0xF0F0F0F0 s j' hj' (by decide) (by decide)
      (by norm_num) (by decide)
  have h8 : ∀ j', j' < 32 → ∀ s,
      ((((s &&& 0x00FF00FF) <<< 8) ||| ((s &&& 0xFF00FF00) >>> 8)) % 2 ^ 32).testBit j'
        = s.testBit (j' ^^^ 8) := by
    intro j' hj' s
    exact maskStepTestBit 8 0x00FF00FF 0xFF00FF00 s j' hj' (by decide) (by decide)
      (by norm_num) (by decide)
  have hb0 : b % 2 ^ 32 < 2 ^ 32 := Nat.mod_lt _ (by norm_num)
  have hfin : ∀ j', j' < 32 → j' ^^^ 8 ^^^ 4 ^^^ 2 ^^^ 1 ^^^ 16 = 31 - j' := by decide
  have hmod : ∀ j', j' < 32 → (b % 2 ^ 32).testBit j' = b.testBit j' := by
    intro j' hj'
    rw [Nat.testBit_mod_two_pow]
    simp [hj']
  unfold radicalInverse_VdC_bits
  rw [h8 j hj, h4 _ (hxlt 8 (by simp) j hj),
    h2 _ (hxlt 4 (by simp) _ (hxlt 8 (by simp) j hj)),
    h1 _ (hxlt 2 (by simp) _ (hxlt 4 (by simp) _ (hxlt 8 (by simp) j hj))),
    rotate16TestBit _ _ (hxlt 1 (by simp) _
      (hxlt 2 (by simp) _ (hxlt 4 (by simp) _ (hxlt 8 (by simp) j hj)))) hb0,
    hmod _ (by rw [hfin j hj]; omega), hfin j hj]

lemma radicalInverse_VdC_bits_lt (b : Nat) : radicalInverse_VdC_bits b < 2 ^ 32 :=
  Nat.mod_lt _ (by norm_num)

/-- Binary expansion of a natural number below `2 ^ n`. -/
lemma eq_sum_testBit : ∀ (n x : Nat), x < 2 ^ n →
    x = ∑ j ∈ Finset.range n, if x.testBit j then 2 ^ j else 0 := by
  intro n
  induction n with
  | zero => intro x hx; interval_cases x; simp
  | succ n ih =>
    intro x hx
    have hdiv : x / 2 < 2 ^ n := by
      rw [Nat.div_lt_iff_lt_mul (by norm_num)]
      calc x < 2 ^ (n + 1) := hx
        _ = 2 ^ n * 2 := by ring
    have hrec := ih (x / 2) hdiv
    have hsucc : ∀ j, x.testBit (j + 1) = (x / 2).testBit j := by
      intro j
      rw [Nat.testBit_succ]
    rw [Finset.sum_range_succ']
    have : (∑ j ∈ Finset.range n, if x.testBit (j + 1) then 2 ^ (j + 1) else 0)
        = 2 * ∑ j ∈ Finset.range n, if (x / 2).testBit j then 2 ^ j else 0 := by
      rw [Finset.mul_sum]
      refine Finset.sum_congr rfl fun j _ => ?_
      rw [hsucc j]
      by_cases h : (x / 2).testBit j <;> simp [h, pow_succ]
      ring
    rw [this, ← hrec]
    have h0 : (if x.testBit 0 then 2 ^ 0 else 0) = x % 2 := by
      rw [Nat.testBit_zero]
      rcases Nat.mod_two_eq_zero_or_one x with h | h <;> simp [h]
    rw [h0]
    omega

/-- The bit-twiddling `radicalInverse_VdC` computes exactly the base-2
radical inverse of the specification. -/
lemma radicalInverse_VdC_eq_spec (i : Nat) :
    radicalInverse_VdC i = radicalInverseVdCSpec i := by
  unfold radicalInverse_VdC radicalInverseVdCSpec
  have hexp := eq_sum_testBit 32 (radicalInverse_VdC_bits i) (radicalInverse_VdC_bits_lt i)
  rw [div_eq_iff (by norm_num : ((2 : ℚ) ^ 32) ≠ 0)]
  calc ((radicalInverse_VdC_bits i : ℕ) : ℚ)
      = ((∑ j ∈ Finset.range 32, if (radicalInverse_VdC_bits i).testBit j
          then 2 ^ j else 0 : ℕ) : ℚ) := Nat.cast_inj.mpr hexp
    _ = ∑ j ∈ Finset.range 32, if i.testBit (31 - j) then ((2 : ℚ) ^ j) else 0 := by
        push_cast
        refine Finset.sum_congr rfl fun j hj => ?_
        rw [radicalInverse_VdC_bits_testBit i j (Finset.mem_range.mp hj)]
    _ = ∑ j ∈ Finset.range 32, if i.testBit j then ((2 : ℚ) ^ (31 - j)) else 0 := by
        rw [← Finset.sum_range_reflect]
        refine Finset.sum_congr rfl fun j hj => ?_
        have hj' : j < 32 := Finset.mem_range.mp hj
        have : 31 - (32 - 1 - j) = j := by omega
        rw [show 32 - 1 - j = 31 - j by omega, this]
    _ = (∑ k ∈ Finset.range 32, if i.testBit k then (1 : ℚ) / 2 ^ (k + 1) else 0)
          * 2 ^ 32 := by
        rw [Finset.sum_mul]
        refine Finset.sum_congr rfl fun j hj => ?_
        have hj' : j < 32 := Finset.mem_range.mp hj
        by_cases h : i.testBit j <;> simp [h]
        rw [inv_mul_eq_div, eq_div_iff (by positivity), ← pow_add]
        congr 1
        omega

lemma internalTargetDefined_of_zero (numPoints : Nat) (isCircle : Bool)
    (h : internalTarget numPoints isCircle = 0) :
    internalTargetDefined numPoints isCircle := by
  cases isCircle
  · right
    simp only [internalTarget] at h
    have h1 : (0.785398163397448309616 : ℚ)
        * ((numPoints * 2 % 2 ^ 32 : ℕ) : ℚ) < 1 :=
      Nat.floor_eq_zero.mp (by simpa using h)
    exact lt_trans h1 (by norm_num)
  · exact Or.inl rfl

/-! ## The claims -/

/-- **C6.**  For every generator state, `DefaultPRNG::randomFloat` (the
specification's `nextFloat`) returns a value in `[-1, 1)` (its exact range,
proved en route, is `[0, 1)` ⊆ `[-1, 1)`). -/
theorem randomFloat_range (g : DefaultPRNG) :
    (-1 : ℚ) ≤ g.randomFloat.1 ∧ g.randomFloat.1 < 1 :=
  ⟨le_trans (by norm_num) (randomFloat_fst_nonneg g), randomFloat_fst_lt_one g⟩

/-- **C9, counterexample.**  `randomInt 0` returns `0`, which does not lie
in the empty interval `[0, 0)`: the claim fails at bound `0` (for any
state; here the default seed `7133167`). -/
theorem randomInt_zero_bound :
    (DefaultPRNG.randomInt 0 ⟨7133167⟩).1 = 0 ∧
      ¬ (DefaultPRNG.randomInt 0 ⟨7133167⟩).1 < 0 := by
  constructor
  · simp [DefaultPRNG.randomInt]
  · omega

/-- **C9, amended.**  For every *positive* bound in the `uint32_t` range of
the source's `maxInt` argument and every generator state,
`DefaultPRNG::randomInt(bound)` (the specification's `nextInt`), which
scales the generator's float output by the bound and truncates, returns a
value in `[0, bound)`. -/
theorem randomInt_lt_bound (maxInt : Nat) (g : DefaultPRNG) (h : 0 < maxInt)
    (_h32 : maxInt < 2 ^ 32) :
    (DefaultPRNG.randomInt maxInt g).1 < maxInt := by
  unfold DefaultPRNG.randomInt
  have h0 := randomFloat_fst_nonneg g
  have h1 := randomFloat_fst_lt_one g
  simp only
  rw [Nat.floor_lt (by positivity)]
  calc g.randomFloat.1 * maxInt < 1 * maxInt := by
        apply mul_lt_mul_of_pos_right h1
        exact_mod_cast h
    _ = maxInt := one_mul _

/-- **C9, amended (witness).** -/
theorem randomInt_lt_bound_at : (DefaultPRNG.randomInt 7 ⟨7133167⟩).1 < 7 :=
  randomInt_lt_bound 7 ⟨7133167⟩ (by norm_num) (by norm_num)

/-- **C5.**  All four samplers are deterministic: `生成泊松点集` and
`生成抖动网格点集` depend on their generator argument only through its
seed — identically seeded generators give identical outputs — and
`生成Vogel点集` / `生成Hammersley点集` take no generator at all and return
equal sequences on equal arguments (they are Lean functions, so purity is
inherent in the embedding; the content is the seed-dependence). -/
theorem samplers_deterministic (g g' : DefaultPRNG)
    (h : g.getSeed = g'.getSeed) (numPoints newPointsCount fuel : Nat)
    (isCircle : Bool) (minDist jitterRadius angle : ℝ) (center : Point) :
    generatePoissonPoints numPoints g isCircle newPointsCount minDist fuel =
        generatePoissonPoints numPoints g' isCircle newPointsCount minDist fuel ∧
      generateJitteredGridPoints numPoints g isCircle jitterRadius center fuel =
        generateJitteredGridPoints numPoints g' isCircle jitterRadius center fuel ∧
      generateVogelPoints numPoints isCircle angle center =
        generateVogelPoints numPoints isCircle angle center ∧
      generateHammersleyPoints numPoints = generateHammersleyPoints numPoints := by
  cases g
  cases g'
  simp only [DefaultPRNG.getSeed] at h
  subst h
  exact ⟨rfl, rfl, rfl, rfl⟩

/-- **C5 (witness).** -/
theorem samplers_deterministic_at :
    generatePoissonPoints 3 ⟨9⟩ true 30 (-1) 5 =
        generatePoissonPoints 3 ⟨9⟩ true 30 (-1) 5 ∧
      generateJitteredGridPoints 3 ⟨9⟩ true (4 / 1000) ⟨0.5, 0.5, true⟩ 5 =
        generateJitteredGridPoints 3 ⟨9⟩ true (4 / 1000) ⟨0.5, 0.5, true⟩ 5 ∧
      generateVogelPoints 3 true 0 ⟨0.5, 0.5, true⟩ =
        generateVogelPoints 3 true 0 ⟨0.5, 0.5, true⟩ ∧
      generateHammersleyPoints 3 = generateHammersleyPoints 3 :=
  samplers_deterministic ⟨9⟩ ⟨9⟩ rfl 3 30 5 true (-1) (4 / 1000) 0 ⟨0.5, 0.5, true⟩

/-- **C8.**  When the internal target of `生成泊松点集` is zero the sampler
returns the empty sequence at once — before the grid is even constructed,
as the early `return` on `!点数量` precedes the grid in the source — and
signals no error (the result is `some []`, never `none`, whatever the fuel
or remaining arguments). -/
theorem poissonPoints_zero_target (numPoints : Nat) (g : DefaultPRNG)
    (isCircle : Bool) (newPointsCount : Nat) (minDist : ℝ) (fuel : Nat)
    (h : internalTarget numPoints isCircle = 0) :
    generatePoissonPoints numPoints g isCircle newPointsCount minDist fuel = some [] := by
  unfold generatePoissonPoints
  rw [if_neg (not_not_intro (internalTargetDefined_of_zero numPoints isCircle h))]
  simp [h]

/-- **C8 (witness).**  A requested count of zero gives target zero. -/
theorem poissonPoints_zero_target_at :
    generatePoissonPoints 0 ⟨7133167⟩ true 30 (-1) 5 = some [] :=
  poissonPoints_zero_target 0 ⟨7133167⟩ true 30 (-1) 5 (by norm_num [internalTarget])

/-- **C3, counterexample.**  At `pointCount = 100` with `isCircle = true`
the internal target is the plain doubled count `200`, not the `π/4`-scaled
`⌊0.785398163397448309616 · 200⌋ = 157` the claim prescribes for the
circle: the source applies the `π/4` factor when `!是圆形`, the opposite of
the claim. -/
theorem internalTarget_circle_not_scaled :
    internalTarget 100 true = 200 ∧
      internalTarget 100 true ≠ ⌊(0.785398163397448309616 : ℚ) * 200⌋₊ := by
  have h157 : ⌊(0.785398163397448309616 : ℚ) * 200⌋₊ = 157 := by
    norm_num [Nat.floor_eq_iff]
  constructor
  · norm_num [internalTarget]
  · rw [h157]
    norm_num [internalTarget]

/-- **C3, amended.**  The internal target of `生成泊松点集` is the requested
count doubled as a `uint32_t`, i.e. `pointCount · 2 mod 2³²` (which is
`2 · pointCount` whenever the count is below `2³¹`); when
`isCircle = false` (filling the square) the doubled count is additionally
scaled by the source's `Pi_4` constant `0.785398163397448309616`
(truncated — asserted here under the condition that the product fits in
`int`, since beyond that the source's `static_cast<int>` is undefined
behaviour), and `Pi_4` is within `10⁻⁶` of `π/4`; when `isCircle = true`
no `π/4` scaling is applied. -/
theorem internalTarget_formula (c : Nat) :
    internalTarget c true = c * 2 % 2 ^ 32 ∧
      (c < 2 ^ 31 → internalTarget c true = 2 * c) ∧
      ((0.785398163397448309616 : ℚ) * ((c * 2 % 2 ^ 32 : ℕ) : ℚ) < 2 ^ 31 →
        internalTarget c false =
          ⌊(0.785398163397448309616 : ℚ) * ((c * 2 % 2 ^ 32 : ℕ) : ℚ)⌋₊) ∧
      |((0.785398163397448309616 : ℚ) : ℝ) - Real.pi / 4| < 1 / 10 ^ 6 := by
  have htrue : internalTarget c true = c * 2 % 2 ^ 32 := by
    simp [internalTarget]
  have hfalse : internalTarget c false =
      ⌊(0.785398163397448309616 : ℚ) * ((c * 2 % 2 ^ 32 : ℕ) : ℚ)⌋₊ := by
    simp [internalTarget]
  refine ⟨htrue, ?_, fun _ => hfalse, ?_⟩
  · intro hc
    rw [htrue, Nat.mod_eq_of_lt (by omega)]
    ring
  · have h1 := Real.pi_gt_d6
    have h2 := Real.pi_lt_d6
    have hL : ((0.785398163397448309616 : ℚ) : ℝ) = 0.785398163397448309616 := by
      norm_num
    rw [abs_lt, hL]
    constructor <;> linarith

/-- **C7.**  `生成Hammersley点集(count)` returns exactly `count` points; the
point of index `i` (in generation order) has `x = i / count` and `y` equal
to the base-2 Van der Corput radical inverse of `i` (computed by the
source's 32-bit bit reversal and scaled to `[0, 1)`; the helper lemma
`radicalInverse_VdC_eq_spec` proves the bit reversal correct against the
mathematical radical inverse).  In particular `生成Hammersley点集(4)` yields
`x` values `0, 1/4, 1/2, 3/4` in index order and `y` values
`0, 1/2, 1/4, 3/4`. -/
theorem hammersleyPoints_formula (numPoints : Nat) :
    (generateHammersleyPoints numPoints).length = numPoints ∧
      (∀ i, i < numPoints →
        (generateHammersleyPoints numPoints).getD i Point.invalid =
          ⟨(i : ℝ) / (numPoints : ℝ), ((radicalInverseVdCSpec i : ℚ) : ℝ), true⟩) ∧
      generateHammersleyPoints 4 =
        [⟨0, 0, true⟩, ⟨1 / 4, 1 / 2, true⟩, ⟨1 / 2, 1 / 4, true⟩,
          ⟨3 / 4, 3 / 4, true⟩] := by
  refine ⟨by simp [generateHammersleyPoints], ?_, ?_⟩
  · intro i hi
    have hlen : i < ((List.range numPoints).map
        (fun j => hammersley2d j numPoints)).length := by simpa using hi
    unfold generateHammersleyPoints
    rw [List.getD_eq_getElem _ _ hlen, List.getElem_map]
    simp only [List.getElem_range]
    unfold hammersley2d
    rw [radicalInverse_VdC_eq_spec]
  · have e0 : radicalInverse_VdC 0 = 0 := by
      have hb : radicalInverse_VdC_bits 0 = 0 := by decide
      norm_num [radicalInverse_VdC, hb]
    have e1 : radicalInverse_VdC 1 = 1 / 2 := by
      have hb : radicalInverse_VdC_bits 1 = 2147483648 := by decide
      norm_num [radicalInverse_VdC, hb]
    have e2 : radicalInverse_VdC 2 = 1 / 4 := by
      have hb : radicalInverse_VdC_bits 2 = 1073741824 := by decide
      norm_num [radicalInverse_VdC, hb]
    have e3 : radicalInverse_VdC 3 = 3 / 4 := by
      have hb : radicalInverse_VdC_bits 3 = 3221225472 := by decide
      norm_num [radicalInverse_VdC, hb]
    simp [generateHammersleyPoints, hammersley2d, List.range_succ, e0, e1, e2, e3]
    norm_num


lemma truncToInt_of_nonneg (r : ℝ) (h : 0 ≤ r) : truncToInt r = ⌊r⌋ := if_pos h

lemma getDistance_comm (a b : Point) : getDistance a b = getDistance b a := by
  unfold getDistance
  ring_nf

lemma getDistance_nonneg (a b : Point) : 0 ≤ getDistance a b := Real.sqrt_nonneg _

lemma abs_sub_x_le_getDistance (a b : Point) : |a.x - b.x| ≤ getDistance a b := by
  unfold getDistance
  rw [← Real.sqrt_sq_eq_abs]
  apply Real.sqrt_le_sqrt
  nlinarith [sq_nonneg (a.y - b.y)]

lemma abs_sub_y_le_getDistance (a b : Point) : |a.y - b.y| ≤ getDistance a b := by
  unfold getDistance
  rw [← Real.sqrt_sq_eq_abs]
  apply Real.sqrt_le_sqrt
  nlinarith [sq_nonneg (a.x - b.x)]

lemma getDistance_lt_of_close (a b : Point) (s : ℝ) (hs : 0 < s)
    (hx : |a.x - b.x| < s) (hy : |a.y - b.y| < s) :
    getDistance a b < s * Real.sqrt 2 := by
  unfold getDistance
  have h2 : s * Real.sqrt 2 = Real.sqrt (s ^ 2 * 2) := by
    rw [Real.sqrt_mul (sq_nonneg s), Real.sqrt_sq hs.le]
  rw [h2]
  apply Real.sqrt_lt_sqrt
  · nlinarith [sq_nonneg (a.x - b.x), sq_nonneg (a.y - b.y)]
  · have h1 := abs_lt.mp hx
    have h2 := abs_lt.mp hy
    nlinarith

lemma minDist_eq_cellSize_mul (minDist : ℝ) :
    cellSizeOf minDist * Real.sqrt 2 = minDist := by
  unfold cellSizeOf
  rw [div_mul_cancel₀]
  positivity

lemma cellSizeOf_pos (minDist : ℝ) (h : 0 < minDist) : 0 < cellSizeOf minDist := by
  unfold cellSizeOf
  positivity

lemma same_floor_close (s x y : ℝ) (hs : 0 < s) (h : ⌊x / s⌋ = ⌊y / s⌋) :
    |x - y| < s := by
  have e1 : x / s * s = x := div_mul_cancel₀ x hs.ne'
  have e2 : y / s * s = y := div_mul_cancel₀ y hs.ne'
  have h1 : (⌊x / s⌋ : ℝ) ≤ x / s := Int.floor_le _
  have h2 : x / s < ⌊x / s⌋ + 1 := Int.lt_floor_add_one _
  have h3 : (⌊y / s⌋ : ℝ) ≤ y / s := Int.floor_le _
  have h4 : y / s < ⌊y / s⌋ + 1 := Int.lt_floor_add_one _
  rw [h] at h1 h2
  rw [abs_lt]
  constructor <;> nlinarith

lemma floor_window (s x y : ℝ) (hs : 0 < s) (h : |x - y| < 2 * s) :
    ⌊y / s⌋ - 2 ≤ ⌊x / s⌋ ∧ ⌊x / s⌋ ≤ ⌊y / s⌋ + 2 := by
  have h' := abs_lt.mp h
  constructor
  · have hle : y / s - 2 ≤ x / s := by
      rw [div_sub' _ _ _ hs.ne', div_le_div_iff₀ hs hs]
      nlinarith
    have : ⌊y / s - 2⌋ ≤ ⌊x / s⌋ := Int.floor_le_floor hle
    rwa [show (2 : ℝ) = ((2 : ℤ) : ℝ) by norm_num, Int.floor_sub_int] at this
  · have hle : x / s ≤ y / s + 2 := by
      rw [div_add' _ _ _ hs.ne', div_le_div_iff₀ hs hs]
      nlinarith
    have : ⌊x / s⌋ ≤ ⌊y / s + 2⌋ := Int.floor_le_floor hle
    rwa [show (2 : ℝ) = ((2 : ℤ) : ℝ) by norm_num, Int.floor_add_int] at this

lemma inRegion_coords (ic : Bool) (p : Point) (h : inRegion ic p) :
    0 ≤ p.x ∧ p.x ≤ 1 ∧ 0 ≤ p.y ∧ p.y ≤ 1 := by
  cases ic with
  | false =>
    obtain ⟨h1, h2, h3, h4⟩ := h
    exact ⟨h1, h3, h2, h4⟩
  | true =>
    have hc : (p.x - 0.5) * (p.x - 0.5) + (p.y - 0.5) * (p.y - 0.5) ≤ 0.25 := h
    refine ⟨by nlinarith, by nlinarith, by nlinarith, by nlinarith⟩

lemma cell_coord_bounds (s : ℝ) (hs : 0 < s) (x : ℝ) (h0 : 0 ≤ x) (h1 : x < 1) :
    0 ≤ ⌊x / s⌋ ∧ ⌊x / s⌋ < gridWidthOf s := by
  have hdiv : 0 ≤ x / s := div_nonneg h0 hs.le
  refine ⟨Int.floor_nonneg.mpr hdiv, ?_⟩
  rw [gridWidthOf, Int.lt_ceil]
  calc ((⌊x / s⌋ : ℤ) : ℝ) ≤ x / s := Int.floor_le _
    _ < 1 / s := by
        rw [div_lt_div_iff_of_pos_right]
        exact h1
        exact hs


lemma imageToGrid_x (p : Point) (s : ℝ) (h : 0 ≤ p.x / s) :
    (imageToGrid p s).x = ⌊p.x / s⌋ := truncToInt_of_nonneg _ h

lemma imageToGrid_y (p : Point) (s : ℝ) (h : 0 ≤ p.y / s) :
    (imageToGrid p s).y = ⌊p.y / s⌋ := truncToInt_of_nonneg _ h

lemma sqrt_two_lt_two : Real.sqrt 2 < 2 := by
  nlinarith [Real.sq_sqrt (by norm_num : (0 : ℝ) ≤ 2), Real.sqrt_nonneg 2]

lemma insert_some_elim (g : Grid) (p : Point) (g' : Grid)
    (h : g.insert p = some g') :
    (0 ≤ (imageToGrid p g.cellSize).x ∧ (imageToGrid p g.cellSize).x < g.height ∧
      0 ≤ (imageToGrid p g.cellSize).y ∧ (imageToGrid p g.cellSize).y < g.width) ∧
    g' = { g with cells := fun i j =>
      if i = (imageToGrid p g.cellSize).x ∧ j = (imageToGrid p g.cellSize).y
      then p else g.cells i j } := by
  unfold Grid.insert at h
  by_cases hc : 0 ≤ (imageToGrid p g.cellSize).x ∧
      (imageToGrid p g.cellSize).x < g.height ∧
      0 ≤ (imageToGrid p g.cellSize).y ∧ (imageToGrid p g.cellSize).y < g.width
  · rw [if_pos hc] at h
    exact ⟨hc, (Option.some_injective _ h).symm⟩
  · rw [if_neg hc] at h
    exact absurd h (by simp)

/-- A candidate passing the region and neighbourhood tests is at distance
≥ minDist from every stored sample: its scan window covers every cell a
conflicting sample could occupy. -/
lemma accepted_separated (ic : Bool) (minDist s : ℝ) (W : ℤ)
    (samples : List Point) (grid : Grid) (q : Point)
    (hm : 0 < minDist) (hs : s = cellSizeOf minDist)
    (hinv : stateInvariant ic minDist s W samples grid)
    (hq : inRegion ic q)
    (hnb : ¬ grid.isInNeighbourhood q minDist s) :
    ∀ b ∈ samples, minDist ≤ getDistance b q := by
  intro b hb
  by_contra hlt
  push_neg at hlt
  apply hnb
  obtain ⟨hW, hH, hcs, hvr, hpair, hplace⟩ := hinv
  obtain ⟨hbx0, hbxW, hby0, hbyW, hcell⟩ := hplace b hb
  have hspos : 0 < s := hs ▸ cellSizeOf_pos minDist hm
  have hqc := inRegion_coords ic q hq
  have hbc := inRegion_coords ic b ((hvr b hb).2)
  have hqgx := imageToGrid_x q s (div_nonneg hqc.1 hspos.le)
  have hqgy := imageToGrid_y q s (div_nonneg hqc.2.2.1 hspos.le)
  have hbgx := imageToGrid_x b s (div_nonneg hbc.1 hspos.le)
  have hbgy := imageToGrid_y b s (div_nonneg hbc.2.2.1 hspos.le)
  have hm2s : minDist < 2 * s := by
    calc minDist = s * Real.sqrt 2 := (hs ▸ minDist_eq_cellSize_mul minDist).symm
      _ < s * 2 := mul_lt_mul_of_pos_left sqrt_two_lt_two hspos
      _ = 2 * s := by ring
  have hdx : |b.x - q.x| < 2 * s :=
    lt_of_le_of_lt (abs_sub_x_le_getDistance b q) (lt_trans hlt hm2s)
  have hdy : |b.y - q.y| < 2 * s :=
    lt_of_le_of_lt (abs_sub_y_le_getDistance b q) (lt_trans hlt hm2s)
  have hwx := floor_window s b.x q.x hspos hdx
  have hwy := floor_window s b.y q.y hspos hdy
  unfold Grid.isInNeighbourhood
  refine ⟨(imageToGrid b s).x, ?_, (imageToGrid b s).y, ?_, ?_, ?_, ?_⟩
  · rw [Finset.mem_Icc, hbgx, hqgx]
    omega
  · rw [Finset.mem_Icc, hbgy, hqgy]
    omega
  · rw [hW, hH]
    exact ⟨hbx0, hbxW, hby0, hbyW⟩
  · rw [hcell]
    exact (hvr b hb).1
  · rw [hcell]
    exact hlt


lemma generateRandomPointAround_valid (c : Point) (m : ℝ) (g : DefaultPRNG) :
    (generateRandomPointAround c m g).1.valid = true := rfl

/-- Inserting an accepted (separated, in-region, valid) candidate preserves
the invariant: in particular it cannot overwrite a stored sample, since two
points of one cell are strictly closer than `minDist = cellSize·√2`. -/
lemma insert_preserves (ic : Bool) (minDist s : ℝ) (W : ℤ)
    (samples : List Point) (grid : Grid) (q : Point) (grid' : Grid)
    (hm : 0 < minDist) (hs : s = cellSizeOf minDist)
    (hinv : stateInvariant ic minDist s W samples grid)
    (hqv : q.valid = true) (hq : inRegion ic q)
    (hsep : ∀ b ∈ samples, minDist ≤ getDistance b q)
    (hins : grid.insert q = some grid') :
    stateInvariant ic minDist s W (samples ++ [q]) grid' := by
  obtain ⟨hW, hH, hcs, hvr, hpair, hplace⟩ := hinv
  obtain ⟨⟨hq0x, hqxH, hq0y, hqyW⟩, hg'⟩ := insert_some_elim grid q grid' hins
  rw [hcs] at hq0x hqxH hq0y hqyW hg'
  rw [hH] at hqxH
  rw [hW] at hqyW
  have hspos : 0 < s := hs ▸ cellSizeOf_pos minDist hm
  have hqc := inRegion_coords ic q hq
  subst hg'
  refine ⟨hW, hH, rfl, ?_, ?_, ?_⟩
  · intro p hp
    rcases List.mem_append.mp hp with h | h
    · exact hvr p h
    · rw [List.mem_singleton.mp h]
      exact ⟨hqv, hq⟩
  · rw [List.pairwise_append]
    refine ⟨hpair, List.pairwise_singleton _ _, ?_⟩
    intro a ha b hb
    rw [List.mem_singleton.mp hb]
    exact hsep a ha
  · intro p hp
    rcases List.mem_append.mp hp with h | h
    · obtain ⟨hpx0, hpxW, hpy0, hpyW, hcell⟩ := hplace p h
      refine ⟨hpx0, hpxW, hpy0, hpyW, ?_⟩
      have hne : ¬ ((imageToGrid p s).x = (imageToGrid q s).x ∧
          (imageToGrid p s).y = (imageToGrid q s).y) := by
        rintro ⟨hex, hey⟩
        have hpc := inRegion_coords ic p ((hvr p h).2)
        rw [imageToGrid_x p s (div_nonneg hpc.1 hspos.le),
          imageToGrid_x q s (div_nonneg hqc.1 hspos.le)] at hex
        rw [imageToGrid_y p s (div_nonneg hpc.2.2.1 hspos.le),
          imageToGrid_y q s (div_nonneg hqc.2.2.1 hspos.le)] at hey
        have hdx := same_floor_close s p.x q.x hspos hex
        have hdy := same_floor_close s p.y q.y hspos hey
        have hclose := getDistance_lt_of_close p q s hspos hdx hdy
        rw [hs] at hclose
        rw [minDist_eq_cellSize_mul minDist] at hclose
        exact absurd (hsep p h) (not_le.mpr hclose)
      show (if (imageToGrid p s).x = (imageToGrid q s).x ∧
          (imageToGrid p s).y = (imageToGrid q s).y then q
        else grid.cells (imageToGrid p s).x (imageToGrid p s).y) = p
      rw [if_neg hne]
      exact hcell
    · rw [List.mem_singleton.mp h]
      refine ⟨hq0x, hqxH, hq0y, hqyW, ?_⟩
      simp


/-- The candidate loop preserves the invariant and adds at most one sample
per attempt. -/
lemma tryCandidates_invariant (ic : Bool) (minDist s : ℝ) (W : ℤ)
    (hm : 0 < minDist) (hs : s = cellSizeOf minDist) :
    ∀ (n : Nat) (cur : Point) (samples proc : List Point) (grid : Grid)
      (g : DefaultPRNG) (out : List Point × List Point × Grid × DefaultPRNG),
      stateInvariant ic minDist s W samples grid →
      tryCandidates ic minDist s n cur (samples, proc, grid, g) = some out →
      stateInvariant ic minDist s W out.1 out.2.2.1 ∧
        out.1.length ≤ samples.length + n := by
  intro n
  induction n with
  | zero =>
    intro cur samples proc grid g out hinv heq
    unfold tryCandidates at heq
    obtain rfl := Option.some_injective _ heq
    exact ⟨hinv, by simp⟩
  | succ n ih =>
    intro cur samples proc grid g out hinv heq
    unfold tryCandidates at heq
    rcases hqg : generateRandomPointAround cur minDist g with ⟨q, g'⟩
    rw [hqg] at heq
    dsimp only at heq
    have hqv : q.valid = true := by
      have h := generateRandomPointAround_valid cur minDist g
      rw [hqg] at h
      exact h
    by_cases hacc : inRegion ic q ∧ ¬ grid.isInNeighbourhood q minDist s
    · rw [if_pos hacc] at heq
      cases hins : grid.insert q with
      | none => rw [hins] at heq; exact absurd heq (by simp)
      | some grid' =>
        rw [hins] at heq
        have hsep := accepted_separated ic minDist s W samples grid q hm hs hinv
          hacc.1 hacc.2
        have hinv' := insert_preserves ic minDist s W samples grid q grid' hm hs
          hinv hqv hacc.1 hsep hins
        obtain ⟨h1, h2⟩ := ih cur (samples ++ [q]) (proc ++ [q]) grid' g' out hinv' heq
        refine ⟨h1, ?_⟩
        simp at h2
        omega
    · rw [if_neg hacc] at heq
      obtain ⟨h1, h2⟩ := ih cur samples proc grid g' out hinv heq
      exact ⟨h1, by omega⟩

/-- The main loop preserves the output properties and the size bound
`target + newPointsCount`. -/
lemma poissonLoop_invariant (ic : Bool) (minDist s : ℝ) (W : ℤ) (k target : Nat)
    (hm : 0 < minDist) (hs : s = cellSizeOf minDist) :
    ∀ (fuel : Nat) (samples proc : List Point) (grid : Grid) (g : DefaultPRNG)
      (out : List Point),
      stateInvariant ic minDist s W samples grid →
      samples.length ≤ target + k →
      poissonLoop ic minDist s k target fuel (samples, proc, grid, g) = some out →
      (∀ p ∈ out, p.valid = true ∧ inRegion ic p) ∧
        List.Pairwise (fun a b => minDist ≤ getDistance a b) out ∧
        out.length ≤ target + k := by
  intro fuel
  induction fuel with
  | zero =>
    intro samples proc grid g out hinv hlen heq
    exact absurd heq (by simp [poissonLoop])
  | succ fuel ih =>
    intro samples proc grid g out hinv hlen heq
    unfold poissonLoop at heq
    cases proc with
    | nil =>
      obtain rfl := Option.some_injective _ heq
      exact ⟨fun p hp => (hinv.2.2.2.1 p hp), hinv.2.2.2.2.1, hlen⟩
    | cons p0 rest =>
      by_cases hguard : samples.length ≤ target
      · rw [if_pos hguard] at heq
        rcases hpop : popRandom (p0 :: rest) g with ⟨cur, proc', g'⟩
        rw [hpop] at heq
        dsimp only at heq
        cases htc : tryCandidates ic minDist s k cur (samples, proc', grid, g') with
        | none => rw [htc] at heq; exact absurd heq (by simp)
        | some st =>
          rw [htc] at heq
          obtain ⟨hinv', hlen'⟩ := tryCandidates_invariant ic minDist s W hm hs k
            cur samples proc' grid g' st hinv htc
          exact ih st.1 st.2.1 st.2.2.1 st.2.2.2 out hinv' (by omega) heq
      · rw [if_neg hguard] at heq
        obtain rfl := Option.some_injective _ heq
        exact ⟨fun p hp => (hinv.2.2.2.1 p hp), hinv.2.2.2.2.1, by omega⟩


lemma firstPointLoop_some (ic : Bool) : ∀ (fuel : Nat) (g : DefaultPRNG)
    (p : Point) (g' : DefaultPRNG),
    firstPointLoop ic fuel g = some (p, g') → p.valid = true ∧ inRegion ic p := by
  intro fuel
  induction fuel with
  | zero => intro g p g' h; exact absurd h (by simp [firstPointLoop])
  | succ fuel ih =>
    intro g p g' h
    unfold firstPointLoop at h
    rcases hx : g.randomFloat with ⟨x, g1⟩
    rw [hx] at h
    dsimp only at h
    rcases hy : g1.randomFloat with ⟨y, g2⟩
    rw [hy] at h
    dsimp only at h
    by_cases hr : inRegion ic ⟨(x : ℝ), (y : ℝ), true⟩
    · rw [if_pos hr] at h
      have hp : (⟨(x : ℝ), (y : ℝ), true⟩ : Point) = p :=
        congrArg Prod.fst (Option.some_injective _ h)
      rw [← hp]
      exact ⟨rfl, hr⟩
    · rw [if_neg hr] at h
      exact ih g2 p g' h

lemma effectiveMinDistance_nonneg (numPoints : Nat) (isCircle : Bool)
    (minDist : ℝ) : 0 ≤ effectiveMinDistance numPoints isCircle minDist := by
  unfold effectiveMinDistance
  by_cases h : minDist < 0
  · rw [if_pos h]
    positivity
  · rw [if_neg h]
    linarith [not_lt.mp h]

/-- Everything `生成泊松点集` can return: valid in-region points, pairwise
separated by the effective minimum distance, at most `target + k` of them. -/
lemma generatePoissonPoints_properties (numPoints : Nat) (g : DefaultPRNG)
    (isCircle : Bool) (k : Nat) (minDist : ℝ) (fuel : Nat) (out : List Point)
    (h : generatePoissonPoints numPoints g isCircle k minDist fuel = some out) :
    (∀ p ∈ out, p.valid = true ∧ inRegion isCircle p) ∧
    List.Pairwise (fun a b =>
      effectiveMinDistance numPoints isCircle minDist ≤ getDistance a b) out ∧
    out.length ≤ internalTarget numPoints isCircle + k := by
  unfold generatePoissonPoints at h
  by_cases hdef : internalTargetDefined numPoints isCircle
  case neg =>
    rw [if_pos hdef] at h
    exact absurd h (by simp)
  rw [if_neg (not_not_intro hdef)] at h
  by_cases htz : internalTarget numPoints isCircle = 0
  · rw [if_pos htz] at h
    obtain rfl := Option.some_injective _ h
    simp
  · rw [if_neg htz] at h
    set M := effectiveMinDistance numPoints isCircle minDist with hMdef
    set s := cellSizeOf M with hsdef
    set W := gridWidthOf s with hWdef
    have hM0 : 0 ≤ M := effectiveMinDistance_nonneg numPoints isCircle minDist
    cases hfp : firstPointLoop isCircle fuel g with
    | none => rw [hfp] at h; exact absurd h (by simp)
    | some pr =>
      rcases pr with ⟨p0, g1⟩
      rw [hfp] at h
      dsimp only at h
      obtain ⟨hp0v, hp0r⟩ := firstPointLoop_some isCircle fuel g p0 g1 hfp
      rcases eq_or_lt_of_le hM0 with hMz | hMpos
      · exfalso
        have hs0 : s = 0 := by rw [hsdef, ← hMz]; unfold cellSizeOf; simp
        have hW0 : W = 0 := by
          rw [hWdef, hs0]
          unfold gridWidthOf
          norm_num
        have hnone : Grid.insert (Grid.make W W s) p0 = none := by
          unfold Grid.insert
          rw [if_neg]
          rintro ⟨h1, h2, _, _⟩
          have h1' : (0 : ℤ) ≤ (imageToGrid p0 s).x := h1
          have h2' : (imageToGrid p0 s).x < W := h2
          rw [hW0] at h2'
          omega
        rw [hnone] at h
        exact absurd h (by simp)
      · cases hins : Grid.insert (Grid.make W W s) p0 with
        | none => rw [hins] at h; exact absurd h (by simp)
        | some grid0 =>
          rw [hins] at h
          obtain ⟨⟨hb1, hb2, hb3, hb4⟩, hg0⟩ :=
            insert_some_elim (Grid.make W W s) p0 grid0 hins
          rw [show (Grid.make W W s).cellSize = s from rfl] at hb1 hb2 hb3 hb4 hg0
          rw [show (Grid.make W W s).height = W from rfl] at hb2
          rw [show (Grid.make W W s).width = W from rfl] at hb4
          have hinv0 : stateInvariant isCircle M s W [p0] grid0 := by
            subst hg0
            refine ⟨rfl, rfl, rfl, ?_, ?_, ?_⟩
            · intro p hp
              rw [List.mem_singleton.mp hp]
              exact ⟨hp0v, hp0r⟩
            · exact List.pairwise_singleton _ _
            · intro p hp
              rw [List.mem_singleton.mp hp]
              refine ⟨hb1, hb2, hb3, hb4, ?_⟩
              simp
          have hout := poissonLoop_invariant isCircle M s W k
            (internalTarget numPoints isCircle) hMpos hsdef fuel [p0] [p0] grid0 g1
            out hinv0 (by simp; omega) h
          exact ⟨hout.1, hout.2.1, hout.2.2⟩


/-- **C1.**  Every pair of distinct points in any sequence `生成泊松点集`
returns is at Euclidean distance ≥ the effective minimum distance (the
argument, or the derived default when the argument is negative). -/
theorem poissonPoints_min_separation (numPoints : Nat) (g : DefaultPRNG)
    (isCircle : Bool) (newPointsCount : Nat) (minDist : ℝ) (fuel : Nat) :
    holdsForOutput
      (List.Pairwise fun a b =>
        effectiveMinDistance numPoints isCircle minDist ≤ getDistance a b)
      (generatePoissonPoints numPoints g isCircle newPointsCount minDist fuel) := by
  cases h : generatePoissonPoints numPoints g isCircle newPointsCount minDist fuel with
  | none => exact trivial
  | some out =>
    exact (generatePoissonPoints_properties numPoints g isCircle newPointsCount
      minDist fuel out h).2.1

/-- **C4, amended.**  The output size of `生成泊松点集` never exceeds the
internal scaled target *plus `newPointsPerIteration`* (the loop guard is
tested before an iteration that can accept up to `newPointsPerIteration`
further points). -/
theorem poissonPoints_count_bounded (numPoints : Nat) (g : DefaultPRNG)
    (isCircle : Bool) (newPointsCount : Nat) (minDist : ℝ) (fuel : Nat) :
    holdsForOutput
      (fun out => out.length ≤ internalTarget numPoints isCircle + newPointsCount)
      (generatePoissonPoints numPoints g isCircle newPointsCount minDist fuel) := by
  cases h : generatePoissonPoints numPoints g isCircle newPointsCount minDist fuel with
  | none => exact trivial
  | some out =>
    exact (generatePoissonPoints_properties numPoints g isCircle newPointsCount
      minDist fuel out h).2.2

lemma jitterLoop_isInRectangle (jr : ℝ) (c : Point) (N x y : Nat) :
    ∀ (fuel : Nat) (g : DefaultPRNG) (p : Point) (g' : DefaultPRNG),
      jitterLoop jr c N x y fuel g = some (p, g') → p.isInRectangle := by
  intro fuel
  induction fuel with
  | zero => intro g p g' h; exact absurd h (by simp [jitterLoop])
  | succ fuel ih =>
    intro g p g' h
    unfold jitterLoop at h
    rcases ho : generateRandomPointAround ⟨0, 0, true⟩ jr g with ⟨o, g1⟩
    rw [ho] at h
    dsimp only at h
    by_cases hr : ((Point.mk ((x : ℝ) / (N : ℝ)) ((y : ℝ) / (N : ℝ)) true).add
        ((o.sub c).add ⟨0.5, 0.5, true⟩)).isInRectangle
    · rw [if_pos hr] at h
      have hp := congrArg Prod.fst (Option.some_injective _ h)
      dsimp only at hp
      rw [← hp]
      exact hr
    · rw [if_neg hr] at h
      exact ih g1 p g' h

lemma jitterGridAux_region (ic : Bool) (jr : ℝ) (c : Point) (N fuel : Nat) :
    ∀ (cells : List (Nat × Nat)) (g : DefaultPRNG)
      (out : List Point) (g'' : DefaultPRNG),
      jitterGridAux ic jr c N fuel cells g = some (out, g'') →
      ∀ p ∈ out, p.isInRectangle ∧ (ic = true → p.isInCircle) := by
  intro cells
  induction cells with
  | nil =>
    intro g out g'' h p hp
    unfold jitterGridAux at h
    have : ([] : List Point) = out := congrArg Prod.fst (Option.some_injective _ h)
    rw [← this] at hp
    exact absurd hp (by simp)
  | cons cell rest ih =>
    rcases cell with ⟨x, y⟩
    intro g out g'' h p hp
    unfold jitterGridAux at h
    cases hj : jitterLoop jr c N x y fuel g with
    | none => rw [hj] at h; exact absurd h (by simp)
    | some pr =>
      rcases pr with ⟨q, g1⟩
      rw [hj] at h
      dsimp only at h
      cases hrest : jitterGridAux ic jr c N fuel rest g1 with
      | none => rw [hrest] at h; exact absurd h (by simp)
      | some st =>
        rcases st with ⟨ps, g2⟩
        rw [hrest] at h
        dsimp only at h
        have hqrect := jitterLoop_isInRectangle jr c N x y fuel g q g1 hj
        by_cases hskip : ic = true ∧ ¬ q.isInCircle
        · rw [if_pos hskip] at h
          obtain ⟨h1, _⟩ := Prod.mk.injEq .. ▸ Option.some_injective _ h
          rw [← h1] at hp
          exact ih g1 ps g2 hrest p hp
        · rw [if_neg hskip] at h
          obtain ⟨h1, _⟩ := Prod.mk.injEq .. ▸ Option.some_injective _ h
          rw [← h1] at hp
          rcases List.mem_cons.mp hp with rfl | hmem
          · refine ⟨hqrect, fun hic => ?_⟩
            by_contra hnc
            exact hskip ⟨hic, hnc⟩
          · exact ih g1 ps g2 hrest p hmem


/-- Circle-mode Vogel points lie strictly inside the disk of radius `1/2`
around the given centre when the `uint32_t` product `4 · 点数量` does not
wrap (`n < 2³⁰`): the 4× oversampling caps the radius at
`sqrt((n - 0.5) / (4n)) < 1/2`. -/
lemma vogelPoints_in_disk (n : Nat) (angle : ℝ) (c : Point) (hn32 : n < 2 ^ 30) :
    ∀ p ∈ generateVogelPoints n true angle c,
      (p.x - c.x) * (p.x - c.x) + (p.y - c.y) * (p.y - c.y) < 1 / 4 := by
  intro p hp
  have hmod : 4 * n % 2 ^ 32 = 4 * n := Nat.mod_eq_of_lt (by omega)
  have hsamp : generateVogelPoints n true angle c = (List.range n).map
      (fun i => (sampleVogelDisk i (4 * n % 2 ^ 32)
        (angle * 3.141592653 / 180)).add c) := rfl
  rw [hsamp] at hp
  simp only [hmod] at hp
  simp only [List.mem_map, List.mem_range] at hp
  obtain ⟨i, hi, rfl⟩ := hp
  unfold sampleVogelDisk Point.add
  dsimp only
  have hn : 0 < n := by omega
  set θ := (i : ℝ) * 2.4 + angle * 3.141592653 / 180 with hθ
  set r := Real.sqrt ((i : ℝ) + 0.5) / Real.sqrt ((4 * n : ℕ) : ℝ) with hr
  have hsq : (r * Real.cos θ + c.x - c.x) * (r * Real.cos θ + c.x - c.x) +
      (r * Real.sin θ + c.y - c.y) * (r * Real.sin θ + c.y - c.y) = r ^ 2 := by
    have h1 := Real.sin_sq_add_cos_sq θ
    rw [add_sub_cancel_right, add_sub_cancel_right]
    linear_combination r ^ 2 * h1
  rw [hsq]
  have hr2 : r ^ 2 = ((i : ℝ) + 0.5) / ((4 * n : ℕ) : ℝ) := by
    rw [hr, div_pow, Real.sq_sqrt (by positivity), Real.sq_sqrt (by positivity)]
  rw [hr2]
  rw [div_lt_div_iff₀ (by push_cast; positivity) (by norm_num)]
  push_cast
  have : (i : ℝ) + 1 ≤ (n : ℝ) := by exact_mod_cast hi
  nlinarith

/-- Hammersley points lie in the unit square. -/
lemma hammersleyPoints_in_square (n : Nat) :
    ∀ p ∈ generateHammersleyPoints n, p.isInRectangle := by
  intro p hp
  unfold generateHammersleyPoints at hp
  simp only [List.mem_map, List.mem_range] at hp
  obtain ⟨i, hi, rfl⟩ := hp
  unfold hammersley2d Point.isInRectangle
  dsimp only
  have hn : 0 < n := by omega
  have hy0 : (0 : ℚ) ≤ radicalInverse_VdC i := by
    unfold radicalInverse_VdC
    positivity
  have hy1 : radicalInverse_VdC i ≤ 1 := by
    unfold radicalInverse_VdC
    rw [div_le_one (by positivity)]
    have := radicalInverse_VdC_bits_lt i
    calc ((radicalInverse_VdC_bits i : ℕ) : ℚ) ≤ ((2 ^ 32 : ℕ) : ℚ) := by
          exact_mod_cast Nat.le_of_lt this
      _ = 2 ^ 32 := by norm_num
  refine ⟨by positivity, by exact_mod_cast hy0, ?_, by exact_mod_cast hy1⟩
  rw [div_le_one (by exact_mod_cast hn)]
  exact_mod_cast Nat.le_of_lt hi

/-- **C2, amended.**  Region containment per sampler: every Poisson point
and every jittered-grid point satisfies the region test selected by its
`isCircle` flag; every Hammersley point lies in the unit square;
circle-mode Vogel points — for counts below `2³⁰`, so that the `uint32_t`
sample count `4 · 点数量` does not wrap — lie in the open disk of radius
1/2 about the given centre, hence in the inscribed unit circle for the
default centre.  (Square-mode Vogel points are *not* contained — see the
counterexample.) -/
theorem samplers_region_containment (numPoints : Nat) (g : DefaultPRNG)
    (isCircle : Bool) (newPointsCount : Nat) (minDist jitterRadius angle : ℝ)
    (center : Point) (fuel : Nat) :
    holdsForOutput (fun out => ∀ p ∈ out, inRegion isCircle p)
      (generatePoissonPoints numPoints g isCircle newPointsCount minDist fuel) ∧
    holdsForOutput (fun out => ∀ p ∈ out, inRegion isCircle p)
      (generateJitteredGridPoints numPoints g isCircle jitterRadius center fuel) ∧
    (∀ p ∈ generateHammersleyPoints numPoints, p.isInRectangle) ∧
    (numPoints < 2 ^ 30 →
      ∀ p ∈ generateVogelPoints numPoints true angle center,
        (p.x - center.x) * (p.x - center.x) +
          (p.y - center.y) * (p.y - center.y) < 1 / 4) ∧
    (numPoints < 2 ^ 30 →
      ∀ p ∈ generateVogelPoints numPoints true angle ⟨0.5, 0.5, true⟩,
        p.isInCircle) := by
  refine ⟨?_, ?_, hammersleyPoints_in_square numPoints,
    fun hn => vogelPoints_in_disk numPoints angle center hn, ?_⟩
  · cases h : generatePoissonPoints numPoints g isCircle newPointsCount
        minDist fuel with
    | none => exact trivial
    | some out =>
      intro p hp
      exact ((generatePoissonPoints_properties numPoints g isCircle
        newPointsCount minDist fuel out h).1 p hp).2
  · cases h : generateJitteredGridPoints numPoints g isCircle jitterRadius
        center fuel with
    | none => exact trivial
    | some out =>
      show ∀ p ∈ out, inRegion isCircle p
      unfold generateJitteredGridPoints at h
      dsimp only at h
      cases haux : jitterGridAux isCircle jitterRadius center
          (Nat.sqrt numPoints) fuel
          ((List.range (Nat.sqrt numPoints)).flatMap fun x =>
            (List.range (Nat.sqrt numPoints)).map fun y => (x, y)) g with
      | none => rw [haux] at h; exact absurd h (by simp)
      | some st =>
        rcases st with ⟨ps, g2⟩
        rw [haux] at h
        dsimp only at h
        have hps : ps = out := Option.some_injective _ h
        intro p hp
        rw [← hps] at hp
        have hreg := jitterGridAux_region isCircle jitterRadius center
          (Nat.sqrt numPoints) fuel _ g ps g2 haux p hp
        cases isCircle with
        | false => exact hreg.1
        | true => exact hreg.2 rfl
  · intro hn p hp
    have h := vogelPoints_in_disk numPoints angle ⟨0.5, 0.5, true⟩ hn p hp
    unfold Point.isInCircle
    dsimp only at h
    nlinarith [h]

/-- **C2, counterexample.**  `生成Vogel点集(1, isCircle = false)` with the
default centre yields the single point `(0.5 + sqrt(0.5), 0.5)`, which
lies outside the unit square (`x > 1`): square-mode Vogel candidates are
not filtered before inclusion. -/
theorem vogelPoints_escape_unit_square :
    ∃ p ∈ generateVogelPoints 1 false 0 ⟨0.5, 0.5, true⟩,
      ¬ p.isInRectangle := by
  have hpt : generateVogelPoints 1 false 0 ⟨0.5, 0.5, true⟩ =
      [⟨Real.sqrt 0.5 + 0.5, 0.5, true⟩] := by
    have hsamp : generateVogelPoints 1 false 0 ⟨0.5, 0.5, true⟩ =
        [(sampleVogelDisk 0 1 (0 * 3.141592653 / 180)).add ⟨0.5, 0.5, true⟩] := rfl
    rw [hsamp]
    unfold sampleVogelDisk Point.add
    norm_num [Real.cos_zero, Real.sin_zero, Real.sqrt_one]
  rw [hpt]
  refine ⟨_, List.mem_singleton.mpr rfl, ?_⟩
  intro hin
  have hx := hin.2.2.1
  dsimp only at hx
  have : (0.5 : ℝ) < Real.sqrt 0.5 :=
    (Real.lt_sqrt (by norm_num)).mpr (by norm_num)
  linarith


/-- **C10, amended.**  For every positive minimum distance and every point
with coordinates in the *half-open* square `[0, 1)²`, the cell indices
`网格::要插入` computes via `图像到网格` lie inside the
`ceil(1/cellSize) × ceil(1/cellSize)` grid `生成泊松点集` allocates, so the
unchecked two-level indexing stays in range.  (At the closed boundary
`x = 1` this can fail — see the counterexample — which is why the insert
embedding is fallible.) -/
theorem gridIndex_in_bounds (minDist : ℝ) (p : Point) (hm : 0 < minDist)
    (hx0 : 0 ≤ p.x) (hx1 : p.x < 1) (hy0 : 0 ≤ p.y) (hy1 : p.y < 1) :
    0 ≤ (imageToGrid p (cellSizeOf minDist)).x ∧
    (imageToGrid p (cellSizeOf minDist)).x < gridWidthOf (cellSizeOf minDist) ∧
    0 ≤ (imageToGrid p (cellSizeOf minDist)).y ∧
    (imageToGrid p (cellSizeOf minDist)).y < gridWidthOf (cellSizeOf minDist) := by
  have hs := cellSizeOf_pos minDist hm
  rw [imageToGrid_x p _ (div_nonneg hx0 hs.le), imageToGrid_y p _ (div_nonneg hy0 hs.le)]
  obtain ⟨ha, hb⟩ := cell_coord_bounds _ hs p.x hx0 hx1
  obtain ⟨hc, hd⟩ := cell_coord_bounds _ hs p.y hy0 hy1
  exact ⟨ha, hb, hc, hd⟩

/-- **C10, amended (witness).** -/
theorem gridIndex_in_bounds_at :
    0 ≤ (imageToGrid ⟨1 / 2, 1 / 2, true⟩ (cellSizeOf 1)).x ∧
    (imageToGrid ⟨1 / 2, 1 / 2, true⟩ (cellSizeOf 1)).x < gridWidthOf (cellSizeOf 1) ∧
    0 ≤ (imageToGrid ⟨1 / 2, 1 / 2, true⟩ (cellSizeOf 1)).y ∧
    (imageToGrid ⟨1 / 2, 1 / 2, true⟩ (cellSizeOf 1)).y < gridWidthOf (cellSizeOf 1) :=
  gridIndex_in_bounds 1 ⟨1 / 2, 1 / 2, true⟩ (by norm_num) (by norm_num)
    (by norm_num) (by norm_num) (by norm_num)

/-- **C10, counterexample.**  With the default minimum distance derived for
`pointCount = 1, isCircle = true` (internal target `2`,
`minDistance = √2/2`, `cellSize = 1/2`, grid width `ceil(2) = 2`), the
in-square point `(1, 1/2)` gets cell index `x = 2`, which is *not* below
the grid width: the claim fails on the closed unit square. -/
theorem gridIndex_out_of_bounds :
    (imageToGrid ⟨1, 1 / 2, true⟩
        (cellSizeOf (effectiveMinDistance 1 true (-1)))).x = 2 ∧
    gridWidthOf (cellSizeOf (effectiveMinDistance 1 true (-1))) = 2 ∧
    ¬ ((imageToGrid ⟨1, 1 / 2, true⟩
          (cellSizeOf (effectiveMinDistance 1 true (-1)))).x <
        gridWidthOf (cellSizeOf (effectiveMinDistance 1 true (-1)))) := by
  have hM : effectiveMinDistance 1 true (-1) = Real.sqrt 2 / 2 := by
    unfold effectiveMinDistance
    rw [if_pos (by norm_num)]
    norm_num [internalTarget]
  have h2 : Real.sqrt 2 ≠ 0 := by positivity
  have hs : cellSizeOf (effectiveMinDistance 1 true (-1)) = 1 / 2 := by
    rw [hM]
    unfold cellSizeOf
    field_simp
    ring
  have hcx : (imageToGrid ⟨1, 1 / 2, true⟩
      (cellSizeOf (effectiveMinDistance 1 true (-1)))).x = 2 := by
    rw [hs]
    have : (imageToGrid ⟨1, 1 / 2, true⟩ ((1 : ℝ) / 2)).x =
        truncToInt ((1 : ℝ) / (1 / 2)) := rfl
    rw [this, truncToInt_of_nonneg _ (by norm_num)]
    norm_num
  have hW : gridWidthOf (cellSizeOf (effectiveMinDistance 1 true (-1))) = 2 := by
    rw [hs]
    unfold gridWidthOf
    norm_num
  refine ⟨hcx, hW, ?_⟩
  rw [hcx, hW]
  omega


lemma randomFloat_zero : DefaultPRNG.randomFloat ⟨0⟩ = (0, ⟨0⟩) := by
  simp [DefaultPRNG.randomFloat]

lemma sqrt_two_gt_one : (1 : ℝ) < Real.sqrt 2 := by
  nlinarith [Real.sq_sqrt (by norm_num : (0 : ℝ) ≤ 2), Real.sqrt_nonneg 2]

/-- The fully concrete run of `生成泊松点集` for `pointCount = 1`, seed `0`,
square mode, `newPointsPerIteration = 1`, `minDistance = 1/2`, fuel `2`.
Seed `0` is a fixed point of the LCG, so every `randomFloat` returns `0`:
the first point is `(0,0)` and the single candidate of the first iteration
is `(0,0) + 1/2·(cos 0, sin 0) = (1/2, 0)`, accepted at distance exactly
`1/2`; the run stops with `2` points against an internal target of `1`. -/
lemma poisson_run_seed_zero :
    generatePoissonPoints 1 ⟨0⟩ false 1 (1 / 2) 2 =
      some [⟨0, 0, true⟩, ⟨1 / 2, 0, true⟩] := by
  have h1 := sqrt_two_gt_one
  have h2 := sqrt_two_lt_two
  have hsne : Real.sqrt 2 ≠ 0 := by positivity
  have hM : effectiveMinDistance 1 false (1 / 2) = 1 / 2 := by
    unfold effectiveMinDistance
    rw [if_neg (by norm_num)]
  have htz : ¬ internalTarget 1 false = 0 := by norm_num [internalTarget]
  have ht1 : internalTarget 1 false = 1 := by
    norm_num [internalTarget, Nat.floor_eq_iff]
  have hW : gridWidthOf (cellSizeOf (1 / 2)) = 3 := by
    unfold gridWidthOf cellSizeOf
    have hval : (1 : ℝ) / (1 / 2 / Real.sqrt 2) = 2 * Real.sqrt 2 := by
      field_simp
    rw [hval, Int.ceil_eq_iff]
    constructor
    · push_cast
      nlinarith [Real.sq_sqrt (by norm_num : (0 : ℝ) ≤ 2)]
    · push_cast
      nlinarith [Real.sq_sqrt (by norm_num : (0 : ℝ) ≤ 2), Real.sqrt_nonneg 2]
  have hfp : firstPointLoop false 2 ⟨0⟩ = some (⟨0, 0, true⟩, ⟨0⟩) := by
    unfold firstPointLoop
    simp only [randomFloat_zero]
    rw [if_pos (by norm_num [randomFloat_zero, inRegion, Point.isInRectangle])]
    norm_num [randomFloat_zero]
  have hcell0 : imageToGrid ⟨0, 0, true⟩ (cellSizeOf (1 / 2)) = ⟨0, 0⟩ := by
    unfold imageToGrid
    rw [show ((⟨0, 0, true⟩ : Point)).x = 0 from rfl,
      show ((⟨0, 0, true⟩ : Point)).y = 0 from rfl, zero_div,
      truncToInt_of_nonneg 0 le_rfl]
    norm_num
  have hins0 : Grid.insert (Grid.make 3 3 (cellSizeOf (1 / 2))) ⟨0, 0, true⟩ =
      some ⟨3, 3, cellSizeOf (1 / 2), fun i j =>
        if i = (0 : ℤ) ∧ j = (0 : ℤ) then ⟨0, 0, true⟩ else Point.invalid⟩ := by
    unfold Grid.insert
    rw [show (Grid.make 3 3 (cellSizeOf (1 / 2))).cellSize = cellSizeOf (1 / 2)
      from rfl, hcell0]
    rw [if_pos (by norm_num [Grid.make])]
    rfl
  set grid0 : Grid := ⟨3, 3, cellSizeOf (1 / 2), fun i j =>
    if i = (0 : ℤ) ∧ j = (0 : ℤ) then ⟨0, 0, true⟩ else Point.invalid⟩ with hgrid0
  have hgra : generateRandomPointAround ⟨0, 0, true⟩ (1 / 2) ⟨0⟩ =
      (⟨1 / 2, 0, true⟩, ⟨0⟩) := by
    unfold generateRandomPointAround
    simp only [randomFloat_zero]
    norm_num [Real.cos_zero, Real.sin_zero]
  have hdist : getDistance ⟨0, 0, true⟩ ⟨1 / 2, 0, true⟩ = 1 / 2 := by
    unfold getDistance
    dsimp only
    rw [show ((0 : ℝ) - 1 / 2) * ((0 : ℝ) - 1 / 2) + ((0 : ℝ) - 0) * ((0 : ℝ) - 0)
      = (1 / 2) ^ 2 by norm_num]
    rw [Real.sqrt_sq (by norm_num)]
  have hnb : ¬ Grid.isInNeighbourhood grid0 ⟨1 / 2, 0, true⟩ (1 / 2)
      (cellSizeOf (1 / 2)) := by
    unfold Grid.isInNeighbourhood
    rintro ⟨i, hi, j, hj, hbound, hval, hd⟩
    by_cases hij : i = (0 : ℤ) ∧ j = (0 : ℤ)
    · have hc : grid0.cells i j = ⟨0, 0, true⟩ := by
        rw [hgrid0]
        exact if_pos hij
      rw [hc, hdist] at hd
      exact absurd hd (by norm_num)
    · have hc : grid0.cells i j = Point.invalid := by
        rw [hgrid0]
        exact if_neg hij
      rw [hc] at hval
      exact absurd hval (by simp [Point.invalid])
  have hqcell : imageToGrid ⟨1 / 2, 0, true⟩ (cellSizeOf (1 / 2)) = ⟨1, 0⟩ := by
    unfold imageToGrid cellSizeOf
    have hx : (1 / 2 : ℝ) / (1 / 2 / Real.sqrt 2) = Real.sqrt 2 := by field_simp
    rw [show ((⟨1 / 2, 0, true⟩ : Point)).x = 1 / 2 from rfl,
      show ((⟨1 / 2, 0, true⟩ : Point)).y = 0 from rfl, hx, zero_div,
      truncToInt_of_nonneg _ (by positivity), truncToInt_of_nonneg 0 le_rfl]
    have hfl : ⌊Real.sqrt 2⌋ = 1 := by
      rw [Int.floor_eq_iff]
      constructor <;> push_cast <;> linarith
    rw [hfl]
    norm_num
  set grid1 : Grid := ⟨3, 3, cellSizeOf (1 / 2), fun i j =>
    if i = (1 : ℤ) ∧ j = (0 : ℤ) then ⟨1 / 2, 0, true⟩
    else if i = (0 : ℤ) ∧ j = (0 : ℤ) then ⟨0, 0, true⟩ else Point.invalid⟩
    with hgrid1
  have hins1 : Grid.insert grid0 ⟨1 / 2, 0, true⟩ = some grid1 := by
    unfold Grid.insert
    rw [show grid0.cellSize = cellSizeOf (1 / 2) from rfl, hqcell]
    rw [if_pos (by norm_num)]
  have htry : tryCandidates false (1 / 2) (cellSizeOf (1 / 2)) 1 ⟨0, 0, true⟩
      ([⟨0, 0, true⟩], [], grid0, ⟨0⟩) =
      some ([⟨0, 0, true⟩, ⟨1 / 2, 0, true⟩], [⟨1 / 2, 0, true⟩], grid1, ⟨0⟩) := by
    unfold tryCandidates
    rw [hgra]
    dsimp only
    rw [if_pos ⟨by norm_num [inRegion, Point.isInRectangle], hnb⟩, hins1]
    rfl
  have hpop : popRandom [⟨0, 0, true⟩] ⟨0⟩ = (⟨0, 0, true⟩, [], ⟨0⟩) := by
    unfold popRandom DefaultPRNG.randomInt
    simp only [randomFloat_zero]
    norm_num
  have hloop : poissonLoop false (1 / 2) (cellSizeOf (1 / 2)) 1 1 2
      ([⟨0, 0, true⟩], [⟨0, 0, true⟩], grid0, ⟨0⟩) =
      some [⟨0, 0, true⟩, ⟨1 / 2, 0, true⟩] := by
    unfold poissonLoop
    rw [if_pos (by norm_num), hpop]
    dsimp only
    rw [htry]
    dsimp only
    unfold poissonLoop
    rw [if_neg (by norm_num)]
  have hdef : internalTargetDefined 1 false := by
    unfold internalTargetDefined
    right
    norm_num
  simp only [generatePoissonPoints]
  rw [if_neg (not_not_intro hdef), if_neg htz, hM, hW, hfp]
  dsimp only
  rw [hins0]
  dsimp only
  rw [ht1]
  exact hloop

/-- **C4, counterexample.**  A run of `生成泊松点集` whose output size
exceeds the internal scaled target: 2 points against a target of 1 (the
loop guard admits an iteration that can add up to `newPointsPerIteration`
points beyond the target). -/
theorem poissonPoints_count_exceeds_target :
    ∃ out, generatePoissonPoints 1 ⟨0⟩ false 1 (1 / 2) 2 = some out ∧
      internalTarget 1 false < out.length := by
  refine ⟨[⟨0, 0, true⟩, ⟨1 / 2, 0, true⟩], poisson_run_seed_zero, ?_⟩
  rw [show internalTarget 1 false = 1 from by norm_num [internalTarget, Nat.floor_eq_iff]]
  norm_num

end PoissonGenerator
